import Mathlib

/-!
Verification development for the `codMode` repository's sandboxed-execution
core (`V8SandboxService.execute`, duplicated for the weather tool set and the
Jira tool set, plus the MCP tool layer that consumes it).

The embedding models:
* guest JSON-like values (`JsValue`, with numbers restricted to integers);
* the wrapper script's argument stringification and the host-side `_log`
  callback (`guestStringify`, `logLine`);
* `JSON.stringify(v)` and `JSON.stringify(v, null, 2)` (`serCV`, `serPV`);
* the output computation of a completed run (`computeOutput`);
* the isolate pool (`acquire`/`release`, pre-warmed with 3 engines,
  `maxPoolSize = 5`) and the end-to-end `execute` flow;
* guest programs as a small command tree (`GProg`) whose interpreter
  (`runProg`) accumulates the log buffer and surfaces uncaught errors, with
  externally-caused outcomes (compile error, timeout, OOM) as `RunEvent`s;
* the MCP `code_execution` tool's response formatting
  (`codeExecutionToolText`).

A JSON parser (`jsonParse`) is defined to settle the stringify/parse
round-trip property.
-/

namespace CodMode

mutual
/-- Guest values crossing the sandbox boundary: the JSON data model plus
`undefined`, with JS numbers restricted to integers (none of the verified
properties hinges on float formatting). Arrays and object field lists are
mutually inductive so that all functions over them are structural. -/
inductive JsValue where
  | vUndefined
  | vNull
  | vBool (b : Bool)
  | vNum (n : Int)
  | vStr (s : String)
  | vArr (elems : JsArr)
  | vObj (fields : JsFields)

inductive JsArr where
  | nil
  | cons (hd : JsValue) (tl : JsArr)

inductive JsFields where
  | nil
  | cons (key : String) (val : JsValue) (tl : JsFields)
end

/-- The character for a decimal digit `n < 10`. -/
def digitChar (n : Nat) : Char := Char.ofNat (48 + n)

/-- Decimal digits of `n`, most significant first; fuel-structural so that
it evaluates by kernel reduction (`natDigits` supplies enough fuel). -/
def natDigitsGo : Nat → Nat → List Char
  | 0, _ => []
  | fuel + 1, n =>
    if n < 10 then [digitChar n] else natDigitsGo fuel (n / 10) ++ [digitChar (n % 10)]

/-- Decimal digits of a natural number. -/
def natDigits (n : Nat) : List Char := natDigitsGo (n + 1) n

/-- JS number-to-string for integers: optional minus sign and decimal digits. -/
def intChars (n : Int) : List Char :=
  if n < 0 then '-' :: natDigits n.natAbs else natDigits n.natAbs

/-- Lowercase hex digit for `n < 16`, as emitted by `JSON.stringify`'s
`\u00XX` escapes. -/
def hexChar (n : Nat) : Char :=
  if n < 10 then Char.ofNat (48 + n) else Char.ofNat (87 + n)

/-- `JSON.stringify` escaping of one string character: `"` and `\` are
backslash-escaped, the control characters with short escapes use them, any
other control character below 0x20 becomes `\u00XX`, everything else is
emitted verbatim. -/
def escapeChar (c : Char) : List Char :=
  if c = '"' then ['\\', '"']
  else if c = '\\' then ['\\', '\\']
  else if c = '\n' then ['\\', 'n']
  else if c = '\r' then ['\\', 'r']
  else if c = '\t' then ['\\', 't']
  else if c = Char.ofNat 8 then ['\\', 'b']
  else if c = Char.ofNat 12 then ['\\', 'f']
  else if c.toNat < 32 then
    ['\\', 'u', '0', '0', hexChar (c.toNat / 16), hexChar (c.toNat % 16)]
  else [c]

/-- Escape every character of a string body. -/
def escapeList : List Char → List Char
  | [] => []
  | c :: cs => escapeChar c ++ escapeList cs

/-- A JSON string literal: quoted, escaped. -/
def strLit (s : String) : List Char := '"' :: (escapeList s.data ++ ['"'])

mutual
/-- Compact `JSON.stringify(v)`, as used by the wrapper's `console.log`
argument stringification. `undefined` is only reachable as an array element,
where `JSON.stringify` emits `null`; object members whose value is
`undefined` are dropped. -/
def serCV : JsValue → List Char
  | .vUndefined => ['n', 'u', 'l', 'l']
  | .vNull => ['n', 'u', 'l', 'l']
  | .vBool true => ['t', 'r', 'u', 'e']
  | .vBool false => ['f', 'a', 'l', 's', 'e']
  | .vNum n => intChars n
  | .vStr s => strLit s
  | .vArr a => '[' :: serCArrBody a
  | .vObj f => '{' :: serCObjBody f

def serCArrBody : JsArr → List Char
  | .nil => [']']
  | .cons x tl => serCV x ++ serCArrTail tl

def serCArrTail : JsArr → List Char
  | .nil => [']']
  | .cons x tl => ',' :: (serCV x ++ serCArrTail tl)

def serCObjBody : JsFields → List Char
  | .nil => ['}']
  | .cons k v tl =>
    match v with
    | .vUndefined => serCObjBody tl
    | _ => strLit k ++ ':' :: (serCV v ++ serCObjTail tl)

def serCObjTail : JsFields → List Char
  | .nil => ['}']
  | .cons k v tl =>
    match v with
    | .vUndefined => serCObjTail tl
    | _ => ',' :: (strLit k ++ ':' :: (serCV v ++ serCObjTail tl))
end

/-- Two-space indentation at nesting depth `d`, as `JSON.stringify(v, null, 2)`
produces. -/
def ind (d : Nat) : List Char := List.replicate (2 * d) ' '

mutual
/-- Pretty `JSON.stringify(v, null, 2)`, as used for the success `output` of a
composite result. Split into body/tail pieces that mirror the positions the
round-trip parser walks through. -/
def serPV : JsValue → Nat → List Char
  | .vUndefined, _ => ['n', 'u', 'l', 'l']
  | .vNull, _ => ['n', 'u', 'l', 'l']
  | .vBool true, _ => ['t', 'r', 'u', 'e']
  | .vBool false, _ => ['f', 'a', 'l', 's', 'e']
  | .vNum n, _ => intChars n
  | .vStr s, _ => strLit s
  | .vArr a, d => '[' :: serArrBody a d
  | .vObj f, d => '{' :: serObjBody f d

def serArrBody : JsArr → Nat → List Char
  | .nil, _ => [']']
  | .cons x tl, d => '\n' :: (ind (d + 1) ++ serPV x (d + 1) ++ serArrTail tl d)

def serArrTail : JsArr → Nat → List Char
  | .nil, d => '\n' :: (ind d ++ [']'])
  | .cons x tl, d => ',' :: '\n' :: (ind (d + 1) ++ serPV x (d + 1) ++ serArrTail tl d)

def serObjBody : JsFields → Nat → List Char
  | .nil, _ => ['}']
  | .cons k v tl, d =>
    match v with
    | .vUndefined => serObjBody tl d
    | _ => '\n' :: (ind (d + 1) ++ strLit k ++ ':' :: ' ' :: (serPV v (d + 1) ++ serObjTail tl d))

def serObjTail : JsFields → Nat → List Char
  | .nil, d => '\n' :: (ind d ++ ['}'])
  | .cons k v tl, d =>
    match v with
    | .vUndefined => serObjTail tl d
    | _ =>
      ',' :: '\n' :: (ind (d + 1) ++ strLit k ++ ':' :: ' ' :: (serPV v (d + 1) ++ serObjTail tl d))
end

/-- JS `String(v)` conversion for the values the sandbox's primitive branch can
see. The `vArr`/`vObj` cases are unreachable from `computeOutput` and
`guestStringify` (the `typeof === 'object'` test routes them to
`JSON.stringify`); they are given JS's `Array/Object.prototype.toString`-like
placeholders for totality only. -/
def jsToString : JsValue → String
  | .vUndefined => "undefined"
  | .vNull => "null"
  | .vBool true => "true"
  | .vBool false => "false"
  | .vNum n => String.mk (intChars n)
  | .vStr s => s
  | .vArr _ => ""
  | .vObj _ => "[object Object]"

/-- JS `typeof v === 'object'`: true for `null`, arrays and objects. -/
def typeofObject : JsValue → Bool
  | .vNull => true
  | .vArr _ => true
  | .vObj _ => true
  | _ => false

/-- The wrapper script's per-argument stringification
(`typeof a === 'object' ? JSON.stringify(a) : String(a)`), applied guest-side
before forwarding to the host `_log` reference. -/
def guestStringify (v : JsValue) : String :=
  if typeofObject v then String.mk (serCV v) else jsToString v

/-- JS `Array.prototype.join(sep)` on a list of strings. -/
def joinSepStr (sep : String) : List String → String
  | [] => ""
  | [x] => x
  | x :: y :: tl => x ++ sep ++ joinSepStr sep (y :: tl)

/-- The single log line appended per guest `console.log(...args)` call: the
guest stub stringifies each argument and `applySync`s the strings to the host
`_log` callback, which re-maps them (the identity on strings, since
`typeof s !== 'object'` and `String(s) = s`) and joins them with a space. -/
def logLine (args : List JsValue) : String :=
  joinSepStr " " (args.map guestStringify)

/-- `JSON.stringify(v, null, 2)` as a string. -/
def prettyStringify (v : JsValue) : String := String.mk (serPV v 0)

/-- The result-to-string conversion of `execute`'s success path:
`undefined`/`null` results fall back to the last captured log line (or the
literal string `"undefined"` when no line was logged); a `typeof 'object'`
value is pretty-printed JSON; a primitive is converted with `String(...)`. -/
def computeOutput (result : JsValue) (logs : List String) : String :=
  match result with
  | .vUndefined | .vNull =>
    match logs.getLast? with
    | some l => l
    | none => "undefined"
  | r => if typeofObject r then prettyStringify r else jsToString r

/-- The `SandboxResult` interface: `{output: string; logs: string[];
error?: string}`. -/
structure SandboxResult where
  output : String
  logs : List String
  error : Option String
deriving DecidableEq

/-- A capability descriptor: a guest-callable name and a host-side handler
that either resolves with a value or rejects with an error message. The
deep-copy marshaling (`ivm.ExternalCopy(...).copyInto()` /
`{result: {promise: true, copy: true}}`) is the identity on the pure value
tree. -/
structure Capability where
  name : String
  handler : List JsValue → Except String JsValue

/-- Guest programs, as the command tree the sandboxed script can drive against
its bindings: finish with a value (the async IIFE's return value), log,
await a capability stub, throw, or try/catch. -/
inductive GProg where
  | ret (v : JsValue)
  | logStmt (args : List JsValue) (k : GProg)
  | callCap (capName : String) (args : List JsValue) (k : JsValue → GProg)
  | throwJs (msg : String)
  | tryCatch (body : GProg) (handler : String → GProg)

/-- Look up the capability bound under guest name `n`. -/
def findCap (caps : List Capability) (n : String) : Option Capability :=
  caps.find? (fun c => c.name == n)

/-- Run a guest program against the bound capabilities, threading the log
buffer (the host-side `logs` array closed over by `_log`). A rejected
capability promise that is not caught, a thrown error, or a call to an
unbound name surfaces as an `error` outcome carrying the lines logged before
the failure point; `tryCatch` turns a rejection of its body into a normal
continuation with the error message. -/
def runProg (caps : List Capability) : GProg → List String → List String × Except String JsValue
  | .ret v, logs => (logs, .ok v)
  | .logStmt args k, logs => runProg caps k (logs ++ [logLine args])
  | .callCap n args k, logs =>
    match findCap caps n with
    | none => (logs, .error (n ++ " is not defined"))
    | some c =>
      match c.handler args with
      | .ok v => runProg caps (k v) logs
      | .error e => (logs, .error e)
  | .throwJs m, logs => (logs, .error m)
  | .tryCatch body h, logs =>
    match runProg caps body logs with
    | (logs', .ok v) => (logs', .ok v)
    | (logs', .error e) => runProg caps (h e) logs'

/-- The rejection message of the external `isolated-vm` engine when the
wall-clock `timeout` elapses and the run is forcibly terminated. -/
def timeoutErrorMessage : String := "Script execution timed out."

/-- The rejection message of the external `isolated-vm` engine when the
isolate exceeds its 128 MB memory limit. -/
def oomErrorMessage : String :=
  "Isolate was disposed during execution due to memory limit"

/-- What `compileScript`/`script.run` does with the submitted source: either
the guest program runs to completion (`completes`), or an external condition
ends the run: a compile error, the wall-clock timeout, or the memory limit.
For the latter two the lines logged before the forced termination are part of
the event, since wall-clock interleaving is outside a pure model. -/
inductive RunEvent where
  | completes (prog : GProg)
  | compileError (msg : String)
  | timeout (logsBefore : List String)
  | oom (logsBefore : List String)

/-- Run the compiled script: the captured log buffer and the settled outcome
of `script.run(context, {timeout, promise: true})`. -/
def runScript (caps : List Capability) : RunEvent → List String × Except String JsValue
  | .completes p => runProg caps p []
  | .compileError m => ([], .error m)
  | .timeout ls => (ls, .error timeoutErrorMessage)
  | .oom ls => (ls, .error oomErrorMessage)

/-- An isolate: `ivm.Isolate` instances are opaque and fungible; the id only
tracks identity across acquire/release. No bindings live on the engine —
each execution builds a fresh context. -/
structure Engine where
  id : Nat
deriving DecidableEq

/-- `maxPoolSize = 5`. -/
def maxPoolSize : Nat := 5

/-- The pool field of the service plus bookkeeping: ids for engines
constructed on demand and the list of disposed engines. -/
structure PoolState where
  pool : List Engine
  nextId : Nat
  disposed : List Engine
deriving DecidableEq

/-- The constructor pre-warms 3 isolates. -/
def initialPoolState : PoolState :=
  { pool := [⟨0⟩, ⟨1⟩, ⟨2⟩], nextId := 3, disposed := [] }

/-- `this.pool.pop() || new ivm.Isolate({memoryLimit})`: take the last pooled
engine, or construct a fresh one when the pool is empty. -/
def acquire : PoolState → Engine × PoolState
  | ⟨[], n, d⟩ => (⟨n⟩, ⟨[], n + 1, d⟩)
  | ⟨e :: es, n, d⟩ => ((e :: es).getLast (by simp), ⟨(e :: es).dropLast, n, d⟩)

/-- The `finally` block: re-pool the engine if the pool is under
`maxPoolSize`, otherwise dispose it. -/
def release (e : Engine) (s : PoolState) : PoolState :=
  if s.pool.length < maxPoolSize then { s with pool := s.pool ++ [e] }
  else { s with disposed := e :: s.disposed }

/-- The names reachable from guest code in the freshly built context: the
`global` self-reference, the host `_log` reference, the wrapper's `console`
object, and one stub per injected capability (`get_weather`, resp.
`jira_search`/`jira_api`). -/
def guestBindings (caps : List Capability) : List String :=
  "global" :: "_log" :: "console" :: caps.map Capability.name

/-- Observable trace of one `execute` call: which engine was loaned, what the
freshly built context bound, and the returned `SandboxResult`. -/
structure ExecTrace where
  engine : Engine
  contextBindings : List String
  result : SandboxResult

/-- One `V8SandboxService.execute` call: acquire an engine, create a fresh
context and bind the stubs, compile and run the wrapped code, convert the
outcome (success shape `{output, logs}` / failure shape
`{output: '', logs, error}`), and — in `finally` — release the engine. -/
def execute (caps : List Capability) (ev : RunEvent) (s : PoolState) : ExecTrace × PoolState :=
  let a := acquire s
  let run := runScript caps ev
  let res : SandboxResult :=
    match run.2 with
    | .ok v => { output := computeOutput v run.1, logs := run.1, error := none }
    | .error m => { output := "", logs := run.1, error := some m }
  ({ engine := a.1, contextBindings := guestBindings caps, result := res },
    release a.1 a.2)

/-- A sequence of `execute` calls threaded through the shared pool. -/
def runMany (calls : List (List Capability × RunEvent)) (s : PoolState) : PoolState :=
  calls.foldl (fun st c => (execute c.1 c.2 st).2) s

/-- The fallback text of the MCP `code_execution` tool when no section was
produced. -/
def noOutputMessage : String := "Code executed successfully (no output)"

/-- The MCP `code_execution` tool's conversion of a `SandboxResult` into the
response text and `isError` flag: failures render the error and the captured
logs; successes render a `Logs:` section when lines were captured and a
`Result:` section unless the output is empty or the literal string
`"undefined"`. -/
def codeExecutionToolText (r : SandboxResult) : String × Bool :=
  match r.error with
  | some e => ("Error: " ++ e ++ "\n\nLogs:\n" ++ joinSepStr "\n" r.logs, true)
  | none =>
    let parts : List String :=
      (if r.logs.length > 0 then ["Logs:\n" ++ joinSepStr "\n" r.logs] else [])
        ++ (if r.output ≠ "" ∧ r.output ≠ "undefined" then ["Result: " ++ r.output] else [])
    let t := joinSepStr "\n\n" parts
    (if t = "" then noOutputMessage else t, false)

/-! ### A JSON parser

`jsonParse` formalises "parsed as JSON" for the round-trip property: it
accepts (a superset of) the texts `JSON.stringify` produces and returns the
structural value tree. It is fuel-structural (one combined function
`parseGo`, dispatched on a mode) so that it evaluates by kernel reduction. -/

/-- JSON insignificant whitespace. -/
def isWsChar (c : Char) : Bool := c = ' ' || c = '\n' || c = '\t' || c = '\r'

/-- Drop leading insignificant whitespace. -/
def skipWs : List Char → List Char
  | [] => []
  | c :: cs => if isWsChar c then skipWs cs else c :: cs

/-- Lowercase-hex digit recogniser (all `\u00XX` escapes emitted by
`JSON.stringify` use lowercase). -/
def isHexDigitChar (c : Char) : Bool := c.isDigit || ('a' ≤ c && c ≤ 'f')

/-- Value of a lowercase hex digit. -/
def hexVal (c : Char) : Nat := if c.isDigit then c.toNat - 48 else c.toNat - 87

/-- The character denoted by a one-letter JSON escape (`\"`, `\\`, `\/`,
`\b`, `\f`, `\n`, `\r`, `\t`). -/
def shortEscape (e : Char) : Option Char :=
  if e = '"' then some '"'
  else if e = '\\' then some '\\'
  else if e = '/' then some '/'
  else if e = 'b' then some (Char.ofNat 8)
  else if e = 'f' then some (Char.ofNat 12)
  else if e = 'n' then some '\n'
  else if e = 'r' then some '\r'
  else if e = 't' then some '\t'
  else none

mutual
/-- Parse the body of a JSON string literal (after the opening quote):
returns the unescaped characters and the text after the closing quote. -/
def parseStringBody : List Char → Option (List Char × List Char)
  | [] => none
  | c :: cs =>
    if c = '"' then some ([], cs)
    else if c = '\\' then parseEscape cs
    else (parseStringBody cs).map (fun p => (c :: p.1, p.2))

/-- Parse a string-literal escape (after the backslash). -/
def parseEscape : List Char → Option (List Char × List Char)
  | [] => none
  | e :: cs =>
    if e = 'u' then parseHexEscape cs
    else
      match shortEscape e with
      | none => none
      | some ch => (parseStringBody cs).map (fun p => (ch :: p.1, p.2))

/-- Parse the four hex digits of a `\uXXXX` escape. -/
def parseHexEscape : List Char → Option (List Char × List Char)
  | h1 :: h2 :: h3 :: h4 :: cs =>
    if isHexDigitChar h1 && isHexDigitChar h2 && isHexDigitChar h3
        && isHexDigitChar h4 then
      (parseStringBody cs).map (fun p =>
        (Char.ofNat (hexVal h1 * 4096 + hexVal h2 * 256 + hexVal h3 * 16 + hexVal h4)
          :: p.1, p.2))
    else none
  | _ => none
end

/-- Split off the maximal leading run of decimal digits. -/
def takeDigits : List Char → List Char × List Char
  | [] => ([], [])
  | c :: cs =>
    if c.isDigit then
      let p := takeDigits cs
      (c :: p.1, p.2)
    else ([], c :: cs)

/-- Numeric value of a digit run. -/
def digitsVal (ds : List Char) : Nat :=
  ds.foldl (fun a c => 10 * a + (c.toNat - 48)) 0

/-- Parse an integer JSON number (optional minus sign, digit run). -/
def parseNumber : List Char → Option (Int × List Char)
  | [] => none
  | c :: cs =>
    if c = '-' then
      match takeDigits cs with
      | ([], _) => none
      | (ds, r) => some (-(digitsVal ds : Int), r)
    else
      match takeDigits (c :: cs) with
      | ([], _) => none
      | (ds, r) => some ((digitsVal ds : Int), r)

/-- Consume an exact expected character sequence. -/
def expectChars : List Char → List Char → Option (List Char)
  | [], cs => some cs
  | _ :: _, [] => none
  | e :: es, c :: cs => if c = e then expectChars es cs else none

/-- Parser modes: a value, an array right after `[`, an array after an
element, an object right after `{`, an object after a member. -/
inductive PMode where
  | val
  | elems
  | elemsTail
  | fieldsStart
  | fieldsTail

/-- Parser outputs per mode. -/
inductive POut where
  | val (v : JsValue)
  | arr (a : JsArr)
  | fields (f : JsFields)

/-- The combined JSON parser, structural in its fuel. -/
def parseGo : Nat → PMode → List Char → Option (POut × List Char)
  | 0, _, _ => none
  | fuel + 1, .val, cs =>
    match skipWs cs with
    | [] => none
    | c :: r =>
      if c = 'n' then (expectChars ['u', 'l', 'l'] r).map (fun r' => (.val .vNull, r'))
      else if c = 't' then
        (expectChars ['r', 'u', 'e'] r).map (fun r' => (.val (.vBool true), r'))
      else if c = 'f' then
        (expectChars ['a', 'l', 's', 'e'] r).map (fun r' => (.val (.vBool false), r'))
      else if c = '"' then
        (parseStringBody r).map (fun p => (.val (.vStr (String.mk p.1)), p.2))
      else if c = '[' then
        match parseGo fuel .elems r with
        | some (.arr a, r') => some (.val (.vArr a), r')
        | _ => none
      else if c = '{' then
        match parseGo fuel .fieldsStart r with
        | some (.fields f, r') => some (.val (.vObj f), r')
        | _ => none
      else
        (parseNumber (c :: r)).map (fun p => (.val (.vNum p.1), p.2))
  | fuel + 1, .elems, cs =>
    match skipWs cs with
    | [] => none
    | c :: r =>
      if c = ']' then some (.arr .nil, r)
      else
        match parseGo fuel .val (c :: r) with
        | some (.val v, r₁) =>
          match parseGo fuel .elemsTail r₁ with
          | some (.arr tl, r₂) => some (.arr (.cons v tl), r₂)
          | _ => none
        | _ => none
  | fuel + 1, .elemsTail, cs =>
    match skipWs cs with
    | [] => none
    | c :: r =>
      if c = ']' then some (.arr .nil, r)
      else if c = ',' then
        match parseGo fuel .val r with
        | some (.val v, r₁) =>
          match parseGo fuel .elemsTail r₁ with
          | some (.arr tl, r₂) => some (.arr (.cons v tl), r₂)
          | _ => none
        | _ => none
      else none
  | fuel + 1, .fieldsStart, cs =>
    match skipWs cs with
    | [] => none
    | c :: r =>
      if c = '}' then some (.fields .nil, r)
      else if c = '"' then
        match parseStringBody r with
        | none => none
        | some (k, r₁) =>
          match skipWs r₁ with
          | [] => none
          | c₂ :: r₂ =>
            if c₂ = ':' then
              match parseGo fuel .val r₂ with
              | some (.val v, r₃) =>
                match parseGo fuel .fieldsTail r₃ with
                | some (.fields tl, r₄) => some (.fields (.cons (String.mk k) v tl), r₄)
                | _ => none
              | _ => none
            else none
      else none
  | fuel + 1, .fieldsTail, cs =>
    match skipWs cs with
    | [] => none
    | c :: r =>
      if c = '}' then some (.fields .nil, r)
      else if c = ',' then
        match skipWs r with
        | [] => none
        | c₁ :: r₁ =>
          if c₁ = '"' then
            match parseStringBody r₁ with
            | none => none
            | some (k, r₂) =>
              match skipWs r₂ with
              | [] => none
              | c₃ :: r₃ =>
                if c₃ = ':' then
                  match parseGo fuel .val r₃ with
                  | some (.val v, r₄) =>
                    match parseGo fuel .fieldsTail r₄ with
                    | some (.fields tl, r₅) => some (.fields (.cons (String.mk k) v tl), r₅)
                    | _ => none
                  | _ => none
                else none
          else none
      else none

/-- Parse one JSON value. -/
def parseValue (fuel : Nat) (cs : List Char) : Option (JsValue × List Char) :=
  match parseGo fuel .val cs with
  | some (.val v, r) => some (v, r)
  | _ => none

/-- `JSON.parse`: parse a complete JSON text (trailing whitespace allowed). -/
def jsonParse (s : String) : Option JsValue :=
  match parseValue (s.length + 1) s.data with
  | some (v, r) => if skipWs r = [] then some v else none
  | none => none

/-- Classifier for the spec's "composite (object)" case of the output
conversion: arrays and non-null objects. -/
def isCompositeObject : JsValue → Bool
  | .vArr _ => true
  | .vObj _ => true
  | _ => false

/-- Classifier for the spec's "primitive" case of the output conversion. -/
def isPrimitiveValue : JsValue → Bool
  | .vBool _ => true
  | .vNum _ => true
  | .vStr _ => true
  | _ => false

/-- The spec's test script `try { await cap(...); } catch (e) { log(e.message) }`
as a guest program. -/
def tryCapProg (capName : String) (args : List JsValue) : GProg :=
  .tryCatch (.callCap capName args .ret)
    (fun e => .logStmt [.vStr e] (.ret .vUndefined))

/-- A straight-line guest program issuing one `console.log` per argument
list. -/
def logsOnly : List (List JsValue) → GProg
  | [] => .ret .vUndefined
  | a :: tl => .logStmt a (logsOnly tl)

/-- Whether a text begins with a decimal digit (a number parse would consume
into it). -/
def headIsDigit : List Char → Bool
  | [] => false
  | c :: _ => c.isDigit

mutual
/-- JSON-compatibility of a value: no `undefined` anywhere in the tree (the
round-trip claim is about JSON-compatible composites; `JSON.stringify` maps
`undefined` to `null`/drops it, which cannot round-trip). -/
def pureV : JsValue → Bool
  | .vUndefined => false
  | .vNull => true
  | .vBool _ => true
  | .vNum _ => true
  | .vStr _ => true
  | .vArr a => pureA a
  | .vObj f => pureF f

def pureA : JsArr → Bool
  | .nil => true
  | .cons x tl => pureV x && pureA tl

def pureF : JsFields → Bool
  | .nil => true
  | .cons _ v tl => pureV v && pureF tl
end

mutual
/-- Node-count measure used as parser fuel. -/
def sizeV : JsValue → Nat
  | .vArr a => sizeA a + 1
  | .vObj f => sizeF f + 1
  | _ => 1

def sizeA : JsArr → Nat
  | .nil => 1
  | .cons x tl => sizeV x + sizeA tl

def sizeF : JsFields → Nat
  | .nil => 1
  | .cons _ v tl => sizeV v + sizeF tl
end

/-- A concrete JSON-compatible composite value used to instantiate the
round-trip property. -/
def sampleComposite : JsValue :=
  .vObj (.cons "a" (.vNum 1)
    (.cons "b" (.vArr (.cons (.vBool true) (.cons (.vStr "x\ny") .nil)))
      (.cons "c" .vNull (.cons "d" (.vNum (-37)) .nil))))

/-! ### Helper lemmas about the pool -/

theorem release_pool_length_le (e : Engine) (s : PoolState)
    (h : s.pool.length ≤ maxPoolSize) : (release e s).pool.length ≤ maxPoolSize := by
  by_cases hc : s.pool.length < maxPoolSize
  · simp only [release, if_pos hc, List.length_append, List.length_singleton]
    omega
  · simpa only [release, if_neg hc] using h

theorem acquire_pool_length_le (s : PoolState) :
    (acquire s).2.pool.length ≤ s.pool.length := by
  rcases s with ⟨pool, n, d⟩
  cases pool with
  | nil => simp [acquire]
  | cons e es => simp [acquire, List.length_dropLast]

theorem execute_pool_length_le (caps : List Capability) (ev : RunEvent) (s : PoolState)
    (h : s.pool.length ≤ maxPoolSize) :
    ((execute caps ev s).2).pool.length ≤ maxPoolSize := by
  have h1 := acquire_pool_length_le s
  exact release_pool_length_le (acquire s).1 (acquire s).2 (le_trans h1 h)

theorem runMany_pool_length_le (calls : List (List Capability × RunEvent)) (s : PoolState)
    (h : s.pool.length ≤ maxPoolSize) :
    (runMany calls s).pool.length ≤ maxPoolSize := by
  induction calls generalizing s with
  | nil => simpa [runMany] using h
  | cons c tl ih =>
    simp only [runMany, List.foldl_cons] at *
    exact ih _ (execute_pool_length_le c.1 c.2 s h)

theorem release_self_mem (e : Engine) (s : PoolState) :
    e ∈ (release e s).pool ∨ e ∈ (release e s).disposed := by
  by_cases hc : s.pool.length < maxPoolSize
  · left; simp [release, hc]
  · right; simp [release, hc]

/-! ### Claims C1 and C2 -/

/-- C1: every `SandboxResult` returned by `execute` satisfies exactly one of
the success shape (`error` unset) or the failure shape (`error` set, in which
case `output` is the empty string, never a meaningful success output). -/
theorem C1_result_shape (caps : List Capability) (ev : RunEvent) (s : PoolState) :
    ((execute caps ev s).1.result.error = none
        ∨ (∃ m, (execute caps ev s).1.result.error = some m
            ∧ (execute caps ev s).1.result.output = ""))
      ∧ ¬((execute caps ev s).1.result.error = none
          ∧ ∃ m, (execute caps ev s).1.result.error = some m) := by
  cases h : (runScript caps ev).2 <;> simp [execute, h]

/-- C2: after any sequence of `execute` calls starting from the pre-warmed
pool, the pool length never exceeds `maxPoolSize`; and a release performed
when the pool already holds `maxPoolSize` engines leaves the pool unchanged
and disposes the surplus engine instead of pushing it. -/
theorem C2_pool_bounded :
    (∀ calls : List (List Capability × RunEvent),
        (runMany calls initialPoolState).pool.length ≤ maxPoolSize)
      ∧ ∀ (e : Engine) (s : PoolState), s.pool.length = maxPoolSize →
          (release e s).pool = s.pool ∧ (release e s).disposed = e :: s.disposed := by
  constructor
  · intro calls
    exact runMany_pool_length_le calls initialPoolState (by decide)
  · intro e s h
    constructor <;> simp [release, h]

theorem C2_pool_bounded_witness :
    (runMany [([], .compileError "e"), ([], .timeout [])] initialPoolState).pool.length
        ≤ maxPoolSize
      ∧ (release ⟨9⟩ ⟨[⟨0⟩, ⟨1⟩, ⟨2⟩, ⟨3⟩, ⟨4⟩], 5, []⟩).pool = [⟨0⟩, ⟨1⟩, ⟨2⟩, ⟨3⟩, ⟨4⟩]
      ∧ (release ⟨9⟩ ⟨[⟨0⟩, ⟨1⟩, ⟨2⟩, ⟨3⟩, ⟨4⟩], 5, []⟩).disposed = [⟨9⟩] :=
  ⟨C2_pool_bounded.1 _,
    (C2_pool_bounded.2 ⟨9⟩ ⟨[⟨0⟩, ⟨1⟩, ⟨2⟩, ⟨3⟩, ⟨4⟩], 5, []⟩ (by decide)).1,
    (C2_pool_bounded.2 ⟨9⟩ ⟨[⟨0⟩, ⟨1⟩, ⟨2⟩, ⟨3⟩, ⟨4⟩], 5, []⟩ (by decide)).2⟩

/-! ### Claim C3 -/

/-- C3: bindings never leak across loans. On a pool holding exactly one
engine, two sequential `execute` calls reuse the same engine, yet the second
call's context carries exactly the bindings built from the second call's
capability set: no capability stub of the first call (under any name distinct
from the fixed bindings and from the second call's capabilities) is reachable
from the second run. -/
theorem C3_fresh_context_per_loan (caps₁ caps₂ : List Capability)
    (ev₁ ev₂ : RunEvent) (e : Engine) (n : Nat) (d : List Engine) :
    (execute caps₁ ev₁ ⟨[e], n, d⟩).1.engine = e
      ∧ (execute caps₂ ev₂ (execute caps₁ ev₁ ⟨[e], n, d⟩).2).1.engine = e
      ∧ (execute caps₂ ev₂ (execute caps₁ ev₁ ⟨[e], n, d⟩).2).1.contextBindings
          = guestBindings caps₂
      ∧ ∀ c ∈ caps₁, c.name ≠ "global" → c.name ≠ "_log" → c.name ≠ "console" →
          (∀ c' ∈ caps₂, c'.name ≠ c.name) →
          c.name ∉ (execute caps₂ ev₂ (execute caps₁ ev₁ ⟨[e], n, d⟩).2).1.contextBindings := by
  refine ⟨rfl, rfl, rfl, ?_⟩
  intro c _ h1 h2 h3 h4
  have hb : (execute caps₂ ev₂ (execute caps₁ ev₁ ⟨[e], n, d⟩).2).1.contextBindings
      = guestBindings caps₂ := rfl
  rw [hb]
  intro hmem
  simp only [guestBindings, List.mem_cons, List.mem_map] at hmem
  rcases hmem with h | h | h | ⟨c', hc', hname⟩
  · exact h1 h
  · exact h2 h
  · exact h3 h
  · exact h4 c' hc' hname

theorem C3_fresh_context_per_loan_witness :
    "get_weather" ∉ (execute [] (.compileError "x")
        (execute [⟨"get_weather", fun _ => .ok .vNull⟩] (.compileError "x")
          ⟨[⟨7⟩], 0, []⟩).2).1.contextBindings :=
  (C3_fresh_context_per_loan [⟨"get_weather", fun _ => .ok .vNull⟩] []
      (.compileError "x") (.compileError "x") ⟨7⟩ 0 []).2.2.2
    ⟨"get_weather", fun _ => .ok .vNull⟩ (List.mem_singleton.mpr rfl)
    (by decide) (by decide) (by decide) (by simp)

/-! ### Claim C4 -/

/-- C4: a failed run (`error` set) returns exactly the log buffer as it stood
at the failure point — a log statement's line survives into whatever happens
afterwards, and a throw keeps the buffer unchanged — while `output` holds the
empty string (no output value exists before the script completes, so the
empty string is all the partial output there is). -/
theorem C4_failure_keeps_logs (caps : List Capability) (ev : RunEvent) (s : PoolState) :
    (∀ m, (execute caps ev s).1.result.error = some m →
        (execute caps ev s).1.result.logs = (runScript caps ev).1
          ∧ (execute caps ev s).1.result.output = "")
      ∧ (∀ args k logs, runProg caps (.logStmt args k) logs
          = runProg caps k (logs ++ [logLine args]))
      ∧ (∀ m logs, runProg caps (.throwJs m) logs = (logs, .error m)) := by
  refine ⟨?_, fun args k logs => rfl, fun m logs => rfl⟩
  intro m hm
  cases h : (runScript caps ev).2 <;> simp [execute, h] at hm ⊢

theorem C4_failure_keeps_logs_witness :
    (execute [] (.completes (.logStmt [.vStr "a"] (.throwJs "boom")))
          initialPoolState).1.result.logs = ["a"]
      ∧ (execute [] (.completes (.logStmt [.vStr "a"] (.throwJs "boom")))
          initialPoolState).1.result.output = "" :=
  (C4_failure_keeps_logs [] (.completes (.logStmt [.vStr "a"] (.throwJs "boom")))
      initialPoolState).1 "boom" rfl

/-! ### Claim C5 -/

/-- C5: on a successful run the output is `computeOutput` of the script's
resolved value and the captured logs, and that conversion satisfies the
spec's three cases: `undefined`/`null` with at least one log line yields the
last log line; a composite value is pretty-printed JSON; a primitive is
converted with `String(...)`. -/
theorem C5_success_output (caps : List Capability) (p : GProg) (s : PoolState)
    (logs : List String) (v : JsValue)
    (hrun : runProg caps p [] = (logs, .ok v)) :
    (execute caps (.completes p) s).1.result.output = computeOutput v logs
      ∧ ((v = .vUndefined ∨ v = .vNull) → logs ≠ [] →
          ∃ last, logs.getLast? = some last ∧ computeOutput v logs = last)
      ∧ (isCompositeObject v = true → computeOutput v logs = prettyStringify v)
      ∧ (isPrimitiveValue v = true → computeOutput v logs = jsToString v) := by
  refine ⟨by simp [execute, runScript, hrun], ?_, ?_, ?_⟩
  · rintro (rfl | rfl) hne <;>
    · cases hl : logs.getLast? with
      | none => exact absurd (List.getLast?_eq_none_iff.mp hl) hne
      | some l => exact ⟨l, rfl, by simp [computeOutput, hl]⟩
  · intro hv
    cases v <;> simp_all [isCompositeObject, computeOutput, typeofObject, prettyStringify]
  · intro hv
    cases v <;> simp_all [isPrimitiveValue, computeOutput, typeofObject, jsToString]

theorem C5_success_output_witness :
    (execute [] (.completes (.logStmt [.vNum 42] (.ret .vUndefined)))
          initialPoolState).1.result.output = computeOutput .vUndefined ["42"]
      ∧ ∃ last, (["42"] : List String).getLast? = some last
          ∧ computeOutput .vUndefined ["42"] = last :=
  ⟨(C5_success_output [] (.logStmt [.vNum 42] (.ret .vUndefined)) initialPoolState
      ["42"] .vUndefined rfl).1,
    (C5_success_output [] (.logStmt [.vNum 42] (.ret .vUndefined)) initialPoolState
      ["42"] .vUndefined rfl).2.1 (Or.inl rfl) (by decide)⟩

/-! ### Claim C6 -/

/-- C6: when the wall-clock budget elapses (the external engine forcibly
terminates the run and rejects), `execute` returns a failure result carrying
the timeout message and the logs captured before the cutoff, and the
`finally` release still runs: the loaned engine ends up re-pooled or
disposed, and the pool bound is preserved. -/
theorem C6_timeout_fails_and_releases (caps : List Capability) (ls : List String)
    (s : PoolState) (h : s.pool.length ≤ maxPoolSize) :
    (execute caps (.timeout ls) s).1.result.error = some timeoutErrorMessage
      ∧ (execute caps (.timeout ls) s).1.result.logs = ls
      ∧ ((execute caps (.timeout ls) s).1.engine ∈ (execute caps (.timeout ls) s).2.pool
          ∨ (execute caps (.timeout ls) s).1.engine ∈ (execute caps (.timeout ls) s).2.disposed)
      ∧ (execute caps (.timeout ls) s).2.pool.length ≤ maxPoolSize := by
  refine ⟨by simp [execute, runScript], by simp [execute, runScript], ?_,
    execute_pool_length_le caps _ s h⟩
  exact release_self_mem (acquire s).1 (acquire s).2

theorem C6_timeout_fails_and_releases_witness :
    (execute [] (.timeout ["partial"]) initialPoolState).1.result.error
        = some timeoutErrorMessage
      ∧ (execute [] (.timeout ["partial"]) initialPoolState).1.result.logs = ["partial"]
      ∧ ((execute [] (.timeout ["partial"]) initialPoolState).1.engine
            ∈ (execute [] (.timeout ["partial"]) initialPoolState).2.pool
          ∨ (execute [] (.timeout ["partial"]) initialPoolState).1.engine
            ∈ (execute [] (.timeout ["partial"]) initialPoolState).2.disposed)
      ∧ (execute [] (.timeout ["partial"]) initialPoolState).2.pool.length ≤ maxPoolSize :=
  C6_timeout_fails_and_releases [] ["partial"] initialPoolState (by decide)

/-! ### Claim C7 -/

/-- C7: a capability handler that rejects surfaces inside the guest as a
normal rejection of the stub's promise: the guest's try/catch catches it, the
caught message can be logged, the overall run succeeds (`error` unset) with
the handler's error text in the logs, and the engine survives into the
release step. -/
theorem C7_handler_rejection_catchable (nm : String)
    (h : List JsValue → Except String JsValue) (args : List JsValue)
    (msg : String) (s : PoolState) (hrej : h args = .error msg) :
    (execute [⟨nm, h⟩] (.completes (tryCapProg nm args)) s).1.result.error = none
      ∧ (execute [⟨nm, h⟩] (.completes (tryCapProg nm args)) s).1.result.logs = [msg]
      ∧ ((execute [⟨nm, h⟩] (.completes (tryCapProg nm args)) s).1.engine
            ∈ (execute [⟨nm, h⟩] (.completes (tryCapProg nm args)) s).2.pool
          ∨ (execute [⟨nm, h⟩] (.completes (tryCapProg nm args)) s).1.engine
            ∈ (execute [⟨nm, h⟩] (.completes (tryCapProg nm args)) s).2.disposed) := by
  have hf : findCap [⟨nm, h⟩] nm = some ⟨nm, h⟩ := by simp [findCap]
  have hrun : runProg [⟨nm, h⟩] (tryCapProg nm args) [] = ([msg], .ok .vUndefined) := by
    simp [tryCapProg, runProg, hf, hrej, logLine, joinSepStr, guestStringify,
      typeofObject, jsToString]
  refine ⟨by simp [execute, runScript, hrun], by simp [execute, runScript, hrun], ?_⟩
  exact release_self_mem (acquire s).1 (acquire s).2

theorem C7_handler_rejection_catchable_witness :
    (execute [⟨"cap", fun _ => .error "boom"⟩]
          (.completes (tryCapProg "cap" [])) initialPoolState).1.result.error = none
      ∧ (execute [⟨"cap", fun _ => .error "boom"⟩]
          (.completes (tryCapProg "cap" [])) initialPoolState).1.result.logs = ["boom"]
      ∧ ((execute [⟨"cap", fun _ => .error "boom"⟩]
            (.completes (tryCapProg "cap" [])) initialPoolState).1.engine
            ∈ (execute [⟨"cap", fun _ => .error "boom"⟩]
              (.completes (tryCapProg "cap" [])) initialPoolState).2.pool
          ∨ (execute [⟨"cap", fun _ => .error "boom"⟩]
            (.completes (tryCapProg "cap" [])) initialPoolState).1.engine
            ∈ (execute [⟨"cap", fun _ => .error "boom"⟩]
              (.completes (tryCapProg "cap" [])) initialPoolState).2.disposed) :=
  C7_handler_rejection_catchable "cap" (fun _ => .error "boom") [] "boom"
    initialPoolState rfl

/-! ### Claim C9 -/

theorem runProg_logsOnly (caps : List Capability) (ls : List (List JsValue))
    (acc : List String) :
    runProg caps (logsOnly ls) acc = (acc ++ ls.map logLine, .ok .vUndefined) := by
  induction ls generalizing acc with
  | nil => simp [logsOnly, runProg]
  | cons a tl ih => simp [logsOnly, runProg, ih]

/-- C9: each guest `console.log(...args)` call appends exactly one line to
the log buffer — the arguments stringified (objects through `JSON.stringify`,
primitives through `String(...)`) and joined with spaces — and the buffer
lists the lines in the order the guest issued them. -/
theorem C9_log_lines (caps : List Capability) (argLists : List (List JsValue))
    (s : PoolState) :
    (execute caps (.completes (logsOnly argLists)) s).1.result.logs
        = argLists.map logLine
      ∧ (∀ args, logLine args = joinSepStr " " (args.map guestStringify))
      ∧ (∀ v, typeofObject v = true → guestStringify v = String.mk (serCV v))
      ∧ (∀ v, typeofObject v = false → guestStringify v = jsToString v) := by
  refine ⟨?_, fun args => rfl, ?_, ?_⟩
  · simp [execute, runScript, runProg_logsOnly]
  · intro v hv; simp [guestStringify, hv]
  · intro v hv; simp [guestStringify, hv]

theorem C9_log_lines_witness :
    (execute [] (.completes (logsOnly [[.vStr "a"], [.vNum 1, .vObj .nil]]))
          initialPoolState).1.result.logs
        = ([[.vStr "a"], [.vNum 1, .vObj .nil]] : List (List JsValue)).map logLine
      ∧ guestStringify (.vObj .nil) = String.mk (serCV (.vObj .nil))
      ∧ guestStringify (.vStr "a") = jsToString (.vStr "a") :=
  ⟨(C9_log_lines [] [[.vStr "a"], [.vNum 1, .vObj .nil]] initialPoolState).1,
    (C9_log_lines [] [] initialPoolState).2.2.1 (.vObj .nil) rfl,
    (C9_log_lines [] [] initialPoolState).2.2.2 (.vStr "a") rfl⟩

/-! ### Claim C10 -/

/-- C10: a successful run with an `undefined` resolved value and no captured
log lines produces the literal string `"undefined"` as output (not an empty
string or a dedicated sentinel), and the MCP `code_execution` tool layer
special-cases exactly that string: the response text carries no `Result:`
section, falling back to the logs section or the no-output message. -/
theorem C10_undefined_output_suppressed (caps : List Capability) (s : PoolState)
    (r : SandboxResult) :
    (execute caps (.completes (.ret .vUndefined)) s).1.result
        = { output := "undefined", logs := [], error := none }
      ∧ (r.error = none → r.output = "undefined" →
          codeExecutionToolText r
            = (if r.logs.length > 0 then "Logs:\n" ++ joinSepStr "\n" r.logs
                else noOutputMessage, false)) := by
  constructor
  · simp [execute, runScript, runProg, computeOutput]
  · intro he ho
    rcases r with ⟨output, logs, error⟩
    cases he
    cases ho
    cases logs with
    | nil => simp [codeExecutionToolText, joinSepStr, noOutputMessage]
    | cons l tl =>
      have hne : ("Logs:\n" ++ joinSepStr "\n" (l :: tl)) ≠ "" := by
        intro hcontra
        have := congrArg String.data hcontra
        simp [String.data_append] at this
      simp [codeExecutionToolText, joinSepStr, hne]

theorem C10_undefined_output_suppressed_witness :
    (execute [] (.completes (.ret .vUndefined)) initialPoolState).1.result
        = { output := "undefined", logs := [], error := none }
      ∧ codeExecutionToolText ⟨"undefined", ["x"], none⟩ = ("Logs:\nx", false) :=
  ⟨(C10_undefined_output_suppressed [] initialPoolState ⟨"undefined", ["x"], none⟩).1,
    (C10_undefined_output_suppressed [] initialPoolState ⟨"undefined", ["x"], none⟩).2
      rfl rfl⟩

/-! ### Digit and number lemmas -/

theorem char_toNat_ofNat {m : Nat} (h : m < 55296) : (Char.ofNat m).toNat = m := by
  unfold Char.ofNat
  rw [dif_pos (Or.inl h)]
  rfl

theorem digitChar_toNat {k : Nat} (h : k < 10) : (digitChar k).toNat = 48 + k :=
  char_toNat_ofNat (by omega)

theorem digitChar_isDigit {k : Nat} (h : k < 10) : (digitChar k).isDigit = true := by
  interval_cases k <;> decide

theorem digitChar_not_special {k : Nat} (h : k < 10) :
    isWsChar (digitChar k) = false ∧ digitChar k ≠ ']' ∧ digitChar k ≠ '-' := by
  interval_cases k <;> decide

theorem digitsVal_append_digit (ds : List Char) (c : Char) :
    digitsVal (ds ++ [c]) = 10 * digitsVal ds + (c.toNat - 48) := by
  simp [digitsVal, List.foldl_append]

theorem natDigitsGo_spec : ∀ fuel n, n < fuel →
    digitsVal (natDigitsGo fuel n) = n
      ∧ (∀ c ∈ natDigitsGo fuel n, c.isDigit = true)
      ∧ ∃ k tl, natDigitsGo fuel n = digitChar k :: tl ∧ k < 10 := by
  intro fuel
  induction fuel with
  | zero => intro n h; omega
  | succ fuel ih =>
    intro n h
    by_cases h10 : n < 10
    · refine ⟨?_, ?_, n, [], by simp [natDigitsGo, h10], h10⟩
      · simp [natDigitsGo, h10, digitsVal, digitChar_toNat h10]
      · intro c hc
        simp [natDigitsGo, h10] at hc
        subst hc
        exact digitChar_isDigit h10
    · have hdiv : n / 10 < fuel := by omega
      obtain ⟨hval, hdig, k, tl, heq, hk⟩ := ih (n / 10) hdiv
      refine ⟨?_, ?_, k, tl ++ [digitChar (n % 10)], by simp [natDigitsGo, h10, heq], hk⟩
      · rw [show natDigitsGo (fuel + 1) n
            = natDigitsGo fuel (n / 10) ++ [digitChar (n % 10)] by
              simp [natDigitsGo, h10],
          digitsVal_append_digit, hval, digitChar_toNat (by omega : n % 10 < 10)]
        omega
      · intro c hc
        rw [show natDigitsGo (fuel + 1) n
            = natDigitsGo fuel (n / 10) ++ [digitChar (n % 10)] by
              simp [natDigitsGo, h10]] at hc
        rcases List.mem_append.mp hc with hm | hm
        · exact hdig c hm
        · simp at hm
          subst hm
          exact digitChar_isDigit (by omega)

theorem natDigits_spec (n : Nat) :
    digitsVal (natDigits n) = n
      ∧ (∀ c ∈ natDigits n, c.isDigit = true)
      ∧ ∃ k tl, natDigits n = digitChar k :: tl ∧ k < 10 :=
  natDigitsGo_spec (n + 1) n (by omega)

theorem takeDigits_append (ds rest : List Char) (hd : ∀ c ∈ ds, c.isDigit = true)
    (hr : headIsDigit rest = false) : takeDigits (ds ++ rest) = (ds, rest) := by
  induction ds with
  | nil =>
    simp only [List.nil_append]
    cases rest with
    | nil => rfl
    | cons c cs =>
      simp only [headIsDigit] at hr
      simp [takeDigits, hr]
  | cons c cs ih =>
    have hc : c.isDigit = true := hd c (by simp)
    simp [takeDigits, hc, ih (fun x hx => hd x (by simp [hx]))]

theorem parseNumber_intChars (n : Int) (rest : List Char)
    (hr : headIsDigit rest = false) :
    parseNumber (intChars n ++ rest) = some (n, rest) := by
  obtain ⟨hval, hdig, k, tl, heq, hk⟩ := natDigits_spec n.natAbs
  have ht : takeDigits (natDigits n.natAbs ++ rest) = (natDigits n.natAbs, rest) :=
    takeDigits_append _ _ hdig hr
  by_cases hneg : n < 0
  · rw [show intChars n ++ rest = '-' :: (natDigits n.natAbs ++ rest) by
      simp [intChars, hneg]]
    rw [heq] at ht hval
    simp only [List.cons_append] at ht
    have : -((digitsVal (digitChar k :: tl) : Nat) : Int) = n := by
      rw [hval]; omega
    simp only [parseNumber, if_pos rfl, heq, List.cons_append]
    rw [ht]
    simp [this]
  · rw [show intChars n ++ rest = digitChar k :: (tl ++ rest) by
      simp [intChars, hneg, heq]]
    have hne : digitChar k ≠ '-' := (digitChar_not_special hk).2.2
    simp only [parseNumber, if_neg hne]
    rw [show digitChar k :: (tl ++ rest) = natDigits n.natAbs ++ rest by simp [heq], ht, heq]
    have : ((digitsVal (digitChar k :: tl) : Nat) : Int) = n := by
      rw [← heq, hval]; omega
    simp [this]

/-! ### Whitespace and serialization-head lemmas -/

theorem skipWs_not_ws {c : Char} (h : isWsChar c = false) (cs : List Char) :
    skipWs (c :: cs) = c :: cs := by simp [skipWs, h]

theorem skipWs_ws {c : Char} (h : isWsChar c = true) (cs : List Char) :
    skipWs (c :: cs) = skipWs cs := by simp [skipWs, h]

theorem skipWs_replicate (n : Nat) (cs : List Char) :
    skipWs (List.replicate n ' ' ++ cs) = skipWs cs := by
  induction n with
  | zero => simp
  | succ n ih => simpa [List.replicate_succ, skipWs, isWsChar] using ih

theorem skipWs_ind (d : Nat) (cs : List Char) : skipWs (ind d ++ cs) = skipWs cs :=
  skipWs_replicate _ _

theorem serPV_head (v : JsValue) (d : Nat) :
    ∃ c r, serPV v d = c :: r ∧ isWsChar c = false ∧ c ≠ ']' := by
  cases v with
  | vUndefined => exact ⟨'n', ['u', 'l', 'l'], rfl, by decide, by decide⟩
  | vNull => exact ⟨'n', ['u', 'l', 'l'], rfl, by decide, by decide⟩
  | vBool b =>
    cases b with
    | true => exact ⟨'t', ['r', 'u', 'e'], rfl, by decide, by decide⟩
    | false => exact ⟨'f', ['a', 'l', 's', 'e'], rfl, by decide, by decide⟩
  | vNum n =>
    obtain ⟨_, _, k, tl, heq, hk⟩ := natDigits_spec n.natAbs
    by_cases hneg : n < 0
    · exact ⟨'-', natDigits n.natAbs,
        by simp [serPV, intChars, hneg], by decide, by decide⟩
    · exact ⟨digitChar k, tl, by simp [serPV, intChars, hneg, heq],
        (digitChar_not_special hk).1, (digitChar_not_special hk).2.1⟩
  | vStr s => exact ⟨'"', escapeList s.data ++ ['"'], rfl, by decide, by decide⟩
  | vArr a => exact ⟨'[', serArrBody a d, rfl, by decide, by decide⟩
  | vObj f => exact ⟨'{', serObjBody f d, rfl, by decide, by decide⟩

theorem headIsDigit_serArrTail (a : JsArr) (d : Nat) (rest : List Char) :
    headIsDigit (serArrTail a d ++ rest) = false := by
  cases a <;> simp [serArrTail, headIsDigit]

theorem headIsDigit_serObjTail (f : JsFields) (d : Nat) (rest : List Char) :
    headIsDigit (serObjTail f d ++ rest) = false := by
  cases f with
  | nil => simp [serObjTail, headIsDigit]
  | cons k v tl =>
    cases v <;> simp [serObjTail, headIsDigit]
    all_goals exact headIsDigit_serObjTail tl d rest

theorem serObjBody_cons_pure (k : String) (v : JsValue) (tl : JsFields) (d : Nat)
    (h : pureV v = true) :
    serObjBody (.cons k v tl) d
      = '\n' :: (ind (d + 1) ++ strLit k ++ ':' :: ' '
          :: (serPV v (d + 1) ++ serObjTail tl d)) := by
  cases v <;> simp_all [serObjBody, pureV]

theorem serObjTail_cons_pure (k : String) (v : JsValue) (tl : JsFields) (d : Nat)
    (h : pureV v = true) :
    serObjTail (.cons k v tl) d
      = ',' :: '\n' :: (ind (d + 1) ++ strLit k ++ ':' :: ' '
          :: (serPV v (d + 1) ++ serObjTail tl d)) := by
  cases v <;> simp_all [serObjTail, pureV]

/-! ### String-escape round trip -/

theorem hexVal_hexChar : ∀ k, k < 16 →
    hexVal (hexChar k) = k ∧ isHexDigitChar (hexChar k) = true := by decide

theorem parseStringBody_escape (s rest : List Char) :
    parseStringBody (escapeList s ++ ('"' :: rest)) = some (s, rest) := by
  induction s with
  | nil =>
    show parseStringBody ('"' :: rest) = some ([], rest)
    rw [parseStringBody]
    simp
  | cons c cs ih =>
    show parseStringBody ((escapeChar c ++ escapeList cs) ++ ('"' :: rest))
        = some (c :: cs, rest)
    rw [List.append_assoc]
    by_cases h1 : c = '"'
    · subst h1
      rw [show escapeChar '"' = ['\\', '"'] from rfl]
      simp only [List.cons_append, List.nil_append]
      rw [parseStringBody]
      simp [parseEscape, shortEscape, ih]
    · by_cases h2 : c = '\\'
      · subst h2
        rw [show escapeChar '\\' = ['\\', '\\'] from rfl]
        simp only [List.cons_append, List.nil_append]
        rw [parseStringBody]
        simp [parseEscape, shortEscape, ih]
      · by_cases h3 : c = '\n'
        · subst h3
          rw [show escapeChar '\n' = ['\\', 'n'] from rfl]
          simp only [List.cons_append, List.nil_append]
          rw [parseStringBody]
          simp [parseEscape, shortEscape, ih]
        · by_cases h4 : c = '\r'
          · subst h4
            rw [show escapeChar '\r' = ['\\', 'r'] from rfl]
            simp only [List.cons_append, List.nil_append]
            rw [parseStringBody]
            simp [parseEscape, shortEscape, ih]
          · by_cases h5 : c = '\t'
            · subst h5
              rw [show escapeChar '\t' = ['\\', 't'] from rfl]
              simp only [List.cons_append, List.nil_append]
              rw [parseStringBody]
              simp [parseEscape, shortEscape, ih]
            · by_cases h6 : c = Char.ofNat 8
              · subst h6
                rw [show escapeChar (Char.ofNat 8) = ['\\', 'b'] from rfl]
                simp only [List.cons_append, List.nil_append]
                rw [parseStringBody]
                simp [parseEscape, shortEscape, ih]
              · by_cases h7 : c = Char.ofNat 12
                · subst h7
                  rw [show escapeChar (Char.ofNat 12) = ['\\', 'f'] from rfl]
                  simp only [List.cons_append, List.nil_append]
                  rw [parseStringBody]
                  simp [parseEscape, shortEscape, ih]
                · by_cases h8 : c.toNat < 32
                  · have e1 := hexVal_hexChar (c.toNat / 16) (by omega)
                    have e2 := hexVal_hexChar (c.toNat % 16) (by omega)
                    have harith : hexVal '0' * 4096 + hexVal '0' * 256
                        + hexVal (hexChar (c.toNat / 16)) * 16
                        + hexVal (hexChar (c.toNat % 16)) = c.toNat := by
                      rw [e1.1, e2.1]
                      have h0 : hexVal '0' = 0 := by decide
                      rw [h0]
                      omega
                    simp only [escapeChar, if_neg h1, if_neg h2, if_neg h3, if_neg h4,
                      if_neg h5, if_neg h6, if_neg h7, if_pos h8]
                    simp only [List.cons_append, List.nil_append]
                    have hz : isHexDigitChar '0' = true := by decide
                    rw [parseStringBody]
                    simp [parseEscape, parseHexEscape, hz, e1.2, e2.2, harith,
                      Char.ofNat_toNat, ih]
                  · simp only [escapeChar, if_neg h1, if_neg h2, if_neg h3, if_neg h4,
                      if_neg h5, if_neg h6, if_neg h7, if_neg h8]
                    simp only [List.cons_append, List.nil_append]
                    rw [parseStringBody]
                    simp [h1, h2, ih]

/-! ### Size bounds: the serialized text is at least as long as the parser
fuel the round trip needs -/

theorem sizeV_pos (v : JsValue) : 1 ≤ sizeV v := by
  cases v <;> simp [sizeV]

theorem sizeA_pos (a : JsArr) : 1 ≤ sizeA a := by
  cases a with
  | nil => simp [sizeA]
  | cons x tl => have := sizeV_pos x; simp [sizeA]; omega

theorem sizeF_pos (f : JsFields) : 1 ≤ sizeF f := by
  cases f with
  | nil => simp [sizeF]
  | cons k v tl => have := sizeV_pos v; simp [sizeF]; omega

theorem strLit_length_pos (s : String) : 1 ≤ (strLit s).length := by
  simp [strLit]

theorem intChars_length_pos (n : Int) : 1 ≤ (intChars n).length := by
  obtain ⟨_, _, k, tl, heq, _⟩ := natDigits_spec n.natAbs
  by_cases hneg : n < 0 <;> simp [intChars, hneg, heq]

theorem pureV_ne_undefined {v : JsValue} (h : pureV v = true) : v ≠ .vUndefined := by
  intro hv
  subst hv
  simp [pureV] at h

mutual
theorem sizeV_le_len (v : JsValue) (d : Nat) (hp : pureV v = true) :
    sizeV v ≤ (serPV v d).length := by
  cases v with
  | vUndefined => simp [pureV] at hp
  | vNull => simp [sizeV, serPV]
  | vBool b => cases b <;> simp [sizeV, serPV]
  | vNum n => simpa [sizeV, serPV] using intChars_length_pos n
  | vStr s => simpa [sizeV, serPV] using strLit_length_pos s
  | vArr a =>
    have := sizeA_le_body a d hp
    simp only [sizeV, serPV, List.length_cons]
    omega
  | vObj f =>
    have := sizeF_le_body f d hp
    simp only [sizeV, serPV, List.length_cons]
    omega

theorem sizeA_le_body (a : JsArr) (d : Nat) (hp : pureA a = true) :
    sizeA a ≤ (serArrBody a d).length := by
  cases a with
  | nil => simp [sizeA, serArrBody]
  | cons x tl =>
    simp only [pureA, Bool.and_eq_true] at hp
    have h1 := sizeV_le_len x (d + 1) hp.1
    have h2 := sizeA_le_tail tl d hp.2
    simp only [sizeA, serArrBody, List.length_cons, List.length_append]
    omega

theorem sizeA_le_tail (a : JsArr) (d : Nat) (hp : pureA a = true) :
    sizeA a ≤ (serArrTail a d).length := by
  cases a with
  | nil => simp [sizeA, serArrTail]
  | cons x tl =>
    simp only [pureA, Bool.and_eq_true] at hp
    have h1 := sizeV_le_len x (d + 1) hp.1
    have h2 := sizeA_le_tail tl d hp.2
    simp only [sizeA, serArrTail, List.length_cons, List.length_append]
    omega

theorem sizeF_le_body (f : JsFields) (d : Nat) (hp : pureF f = true) :
    sizeF f ≤ (serObjBody f d).length := by
  cases f with
  | nil => simp [sizeF, serObjBody]
  | cons k v tl =>
    simp only [pureF, Bool.and_eq_true] at hp
    have h1 := sizeV_le_len v (d + 1) hp.1
    have h2 := sizeF_le_tail tl d hp.2
    rw [serObjBody_cons_pure k v tl d hp.1]
    simp only [sizeF, List.length_cons, List.length_append]
    omega

theorem sizeF_le_tail (f : JsFields) (d : Nat) (hp : pureF f = true) :
    sizeF f ≤ (serObjTail f d).length := by
  cases f with
  | nil => simp [sizeF, serObjTail]
  | cons k v tl =>
    simp only [pureF, Bool.and_eq_true] at hp
    have h1 := sizeV_le_len v (d + 1) hp.1
    have h2 := sizeF_le_tail tl d hp.2
    rw [serObjTail_cons_pure k v tl d hp.1]
    simp only [sizeF, List.length_cons, List.length_append]
    omega
end

/-! ### The stringify/parse round trip -/

theorem string_mk_data (s : String) : String.mk s.data = s := rfl

theorem digitChar_ne_dispatch {k : Nat} (h : k < 10) :
    digitChar k ≠ 'n' ∧ digitChar k ≠ 't' ∧ digitChar k ≠ 'f' ∧ digitChar k ≠ '"'
      ∧ digitChar k ≠ '[' ∧ digitChar k ≠ '{' := by
  interval_cases k <;> decide

theorem parseGo_val_congr (fuel : Nat) {cs₁ cs₂ : List Char}
    (h : skipWs cs₁ = skipWs cs₂) :
    parseGo fuel .val cs₁ = parseGo fuel .val cs₂ := by
  cases fuel with
  | zero => rfl
  | succ fuel => rw [parseGo, parseGo, h]

/-- The parser inverts the pretty serializer: with enough fuel, parsing the
serialization of a JSON-compatible value (followed by any non-digit-headed
text) returns exactly that value, in every parser mode. -/
theorem parseGo_ser : ∀ fuel : Nat,
    (∀ v d rest, pureV v = true → sizeV v ≤ fuel → headIsDigit rest = false →
        parseGo fuel .val (serPV v d ++ rest) = some (.val v, rest))
      ∧ (∀ a d rest, pureA a = true → sizeA a ≤ fuel → headIsDigit rest = false →
          parseGo fuel .elems (serArrBody a d ++ rest) = some (.arr a, rest))
      ∧ (∀ a d rest, pureA a = true → sizeA a ≤ fuel → headIsDigit rest = false →
          parseGo fuel .elemsTail (serArrTail a d ++ rest) = some (.arr a, rest))
      ∧ (∀ f d rest, pureF f = true → sizeF f ≤ fuel → headIsDigit rest = false →
          parseGo fuel .fieldsStart (serObjBody f d ++ rest) = some (.fields f, rest))
      ∧ (∀ f d rest, pureF f = true → sizeF f ≤ fuel → headIsDigit rest = false →
          parseGo fuel .fieldsTail (serObjTail f d ++ rest) = some (.fields f, rest)) := by
  intro fuel
  induction fuel with
  | zero =>
    refine ⟨?_, ?_, ?_, ?_, ?_⟩ <;> intro x d rest hp hs hr
    · have := sizeV_pos x; omega
    · have := sizeA_pos x; omega
    · have := sizeA_pos x; omega
    · have := sizeF_pos x; omega
    · have := sizeF_pos x; omega
  | succ fuel ih =>
    obtain ⟨ihV, ihE, ihET, ihF, ihFT⟩ := ih
    refine ⟨?_, ?_, ?_, ?_, ?_⟩
    · -- mode .val
      intro v d rest hp hs hr
      cases v with
      | vUndefined => simp [pureV] at hp
      | vNull =>
        rw [show serPV .vNull d = ['n', 'u', 'l', 'l'] from rfl, parseGo]
        simp [skipWs, isWsChar, expectChars]
      | vBool b =>
        cases b with
        | true =>
          rw [show serPV (.vBool true) d = ['t', 'r', 'u', 'e'] from rfl, parseGo]
          simp [skipWs, isWsChar, expectChars]
        | false =>
          rw [show serPV (.vBool false) d = ['f', 'a', 'l', 's', 'e'] from rfl, parseGo]
          simp [skipWs, isWsChar, expectChars]
      | vNum n =>
        rw [show serPV (.vNum n) d = intChars n from rfl, parseGo]
        obtain ⟨_, _, k, tl, heq, hk⟩ := natDigits_spec n.natAbs
        have hnum := parseNumber_intChars n rest hr
        by_cases hneg : n < 0
        · rw [show intChars n ++ rest = '-' :: (natDigits n.natAbs ++ rest) by
            simp [intChars, hneg]]
          rw [skipWs_not_ws (by decide) _]
          simp only []
          rw [show ('-' :: (natDigits n.natAbs ++ rest)) = intChars n ++ rest by
            simp [intChars, hneg]]
          simp [hnum]
        · obtain ⟨hd1, hd2, hd3, hd4, hd5, hd6⟩ := digitChar_ne_dispatch hk
          have hws := (digitChar_not_special hk).1
          rw [show intChars n ++ rest = digitChar k :: (tl ++ rest) by
            simp [intChars, hneg, heq]]
          rw [skipWs_not_ws hws _]
          simp only [hd1, hd2, hd3, hd4, hd5, hd6, if_neg, if_false]
          rw [show (digitChar k :: (tl ++ rest)) = intChars n ++ rest by
            simp [intChars, hneg, heq]]
          simp [hd1, hd2, hd3, hd4, hd5, hd6, hnum]
      | vStr s =>
        rw [show serPV (.vStr s) d = strLit s from rfl]
        simp only [strLit, List.cons_append, List.append_assoc, List.nil_append]
        rw [parseGo]
        rw [skipWs_not_ws (by decide) _]
        simp [parseStringBody_escape]
      | vArr a =>
        rw [show serPV (.vArr a) d = '[' :: serArrBody a d from rfl, parseGo]
        rw [List.cons_append, skipWs_not_ws (by decide) _]
        have he : parseGo fuel .elems (serArrBody a d ++ rest) = some (.arr a, rest) :=
          ihE a d rest (by simpa [pureV] using hp)
            (by simp only [sizeV] at hs; omega) hr
        simp [he]
      | vObj f =>
        rw [show serPV (.vObj f) d = '{' :: serObjBody f d from rfl, parseGo]
        rw [List.cons_append, skipWs_not_ws (by decide) _]
        have he : parseGo fuel .fieldsStart (serObjBody f d ++ rest)
            = some (.fields f, rest) :=
          ihF f d rest (by simpa [pureV] using hp)
            (by simp only [sizeV] at hs; omega) hr
        simp [he]
    · -- mode .elems
      intro a d rest hp hs hr
      cases a with
      | nil =>
        rw [show serArrBody .nil d = [']'] from rfl, parseGo]
        rw [show ([']'] ++ rest : List Char) = ']' :: rest from rfl]
        rw [skipWs_not_ws (by decide) _]
        simp
      | cons x tl =>
        simp only [pureA, Bool.and_eq_true] at hp
        simp only [sizeA] at hs
        have hszx : sizeV x ≤ fuel := by have := sizeA_pos tl; omega
        have hsztl : sizeA tl ≤ fuel := by have := sizeV_pos x; omega
        have ihV' := ihV x (d + 1) (serArrTail tl d ++ rest) hp.1 hszx
          (headIsDigit_serArrTail tl d rest)
        have ihET' := ihET tl d rest hp.2 hsztl hr
        obtain ⟨c₀, r₀, hcr, hws, hne⟩ := serPV_head x (d + 1)
        have hskip : skipWs (serArrBody (.cons x tl) d ++ rest)
            = c₀ :: (r₀ ++ (serArrTail tl d ++ rest)) := by
          rw [show serArrBody (.cons x tl) d
              = '\n' :: (ind (d + 1) ++ serPV x (d + 1) ++ serArrTail tl d) from rfl]
          rw [List.cons_append, skipWs_ws (by decide), List.append_assoc,
            List.append_assoc, skipWs_ind, hcr, List.cons_append, skipWs_not_ws hws]
        rw [parseGo, hskip]
        simp only [if_neg hne]
        rw [show c₀ :: (r₀ ++ (serArrTail tl d ++ rest))
            = serPV x (d + 1) ++ (serArrTail tl d ++ rest) by rw [hcr, List.cons_append]]
        rw [ihV']
        simp [ihET']
    · -- mode .elemsTail
      intro a d rest hp hs hr
      cases a with
      | nil =>
        rw [show serArrTail .nil d = '\n' :: (ind d ++ [']']) from rfl, parseGo]
        rw [List.cons_append, skipWs_ws (by decide), List.append_assoc, skipWs_ind]
        rw [show ([']'] ++ rest : List Char) = ']' :: rest from rfl]
        rw [skipWs_not_ws (by decide) _]
        simp
      | cons x tl =>
        simp only [pureA, Bool.and_eq_true] at hp
        simp only [sizeA] at hs
        have hszx : sizeV x ≤ fuel := by have := sizeA_pos tl; omega
        have hsztl : sizeA tl ≤ fuel := by have := sizeV_pos x; omega
        have ihV' := ihV x (d + 1) (serArrTail tl d ++ rest) hp.1 hszx
          (headIsDigit_serArrTail tl d rest)
        have ihET' := ihET tl d rest hp.2 hsztl hr
        rw [show serArrTail (.cons x tl) d
            = ',' :: ('\n' :: (ind (d + 1) ++ serPV x (d + 1) ++ serArrTail tl d))
            from rfl, parseGo]
        rw [List.cons_append, skipWs_not_ws (by decide) _]
        have hcongr : parseGo fuel .val
            (('\n' :: (ind (d + 1) ++ serPV x (d + 1) ++ serArrTail tl d)) ++ rest)
            = parseGo fuel .val (serPV x (d + 1) ++ (serArrTail tl d ++ rest)) := by
          refine parseGo_val_congr fuel ?_
          rw [List.cons_append, skipWs_ws (by decide), List.append_assoc,
            List.append_assoc, skipWs_ind]
        simp only []
        rw [hcongr, ihV']
        simp [ihET']
    · -- mode .fieldsStart
      intro f d rest hp hs hr
      cases f with
      | nil =>
        rw [show serObjBody .nil d = ['}'] from rfl, parseGo]
        rw [show (['}'] ++ rest : List Char) = '}' :: rest from rfl]
        rw [skipWs_not_ws (by decide) _]
        simp
      | cons k v tl =>
        simp only [pureF, Bool.and_eq_true] at hp
        simp only [sizeF] at hs
        have hszv : sizeV v ≤ fuel := by have := sizeF_pos tl; omega
        have hsztl : sizeF tl ≤ fuel := by have := sizeV_pos v; omega
        have ihV' := ihV v (d + 1) (serObjTail tl d ++ rest) hp.1 hszv
          (headIsDigit_serObjTail tl d rest)
        have ihFT' := ihFT tl d rest hp.2 hsztl hr
        rw [serObjBody_cons_pure k v tl d hp.1, parseGo]
        have hskip : skipWs (('\n' :: (ind (d + 1) ++ strLit k ++ ':' :: ' '
              :: (serPV v (d + 1) ++ serObjTail tl d))) ++ rest)
            = '"' :: (escapeList k.data
                ++ ('"' :: (':' :: ' ' :: (serPV v (d + 1) ++ (serObjTail tl d ++ rest))))) := by
          simp only [List.cons_append, List.append_assoc, strLit, List.nil_append]
          rw [skipWs_ws (by decide), skipWs_ind, skipWs_not_ws (by decide) _]
        rw [hskip]
        have hstr := parseStringBody_escape k.data
          (':' :: ' ' :: (serPV v (d + 1) ++ (serObjTail tl d ++ rest)))
        have hcongr : parseGo fuel .val
            (' ' :: (serPV v (d + 1) ++ (serObjTail tl d ++ rest)))
            = parseGo fuel .val (serPV v (d + 1) ++ (serObjTail tl d ++ rest)) :=
          parseGo_val_congr fuel (skipWs_ws (by decide) _)
        simp [skipWs, isWsChar, hstr, hcongr, ihV', ihFT', string_mk_data,
          List.append_assoc]
    · -- mode .fieldsTail
      intro f d rest hp hs hr
      cases f with
      | nil =>
        rw [show serObjTail .nil d = '\n' :: (ind d ++ ['}']) from rfl, parseGo]
        rw [List.cons_append, skipWs_ws (by decide), List.append_assoc, skipWs_ind]
        rw [show (['}'] ++ rest : List Char) = '}' :: rest from rfl]
        rw [skipWs_not_ws (by decide) _]
        simp
      | cons k v tl =>
        simp only [pureF, Bool.and_eq_true] at hp
        simp only [sizeF] at hs
        have hszv : sizeV v ≤ fuel := by have := sizeF_pos tl; omega
        have hsztl : sizeF tl ≤ fuel := by have := sizeV_pos v; omega
        have ihV' := ihV v (d + 1) (serObjTail tl d ++ rest) hp.1 hszv
          (headIsDigit_serObjTail tl d rest)
        have ihFT' := ihFT tl d rest hp.2 hsztl hr
        rw [serObjTail_cons_pure k v tl d hp.1, parseGo]
        simp only [List.cons_append, List.append_assoc]
        have hskip : skipWs ('\n' :: (ind (d + 1) ++ (strLit k ++ (':' :: ' '
              :: (serPV v (d + 1) ++ (serObjTail tl d ++ rest))))))
            = '"' :: (escapeList k.data
                ++ ('"' :: (':' :: ' ' :: (serPV v (d + 1) ++ (serObjTail tl d ++ rest))))) := by
          rw [skipWs_ws (by decide), skipWs_ind]
          simp only [strLit, List.cons_append, List.append_assoc, List.nil_append]
          rw [skipWs_not_ws (by decide) _]
        have hstr := parseStringBody_escape k.data
          (':' :: ' ' :: (serPV v (d + 1) ++ (serObjTail tl d ++ rest)))
        have hcongr : parseGo fuel .val
            (' ' :: (serPV v (d + 1) ++ (serObjTail tl d ++ rest)))
            = parseGo fuel .val (serPV v (d + 1) ++ (serObjTail tl d ++ rest)) :=
          parseGo_val_congr fuel (skipWs_ws (by decide) _)
        have hsk3 : skipWs (':' :: ' ' :: (serPV v (d + 1) ++ (serObjTail tl d ++ rest)))
            = ':' :: ' ' :: (serPV v (d + 1) ++ (serObjTail tl d ++ rest)) :=
          skipWs_not_ws (by decide) _
        rw [skipWs_not_ws (by decide) _]
        simp [hskip, hstr, hsk3, hcongr, ihV', ihFT', string_mk_data]

theorem jsonParse_prettyStringify (v : JsValue) (hp : pureV v = true) :
    jsonParse (prettyStringify v) = some v := by
  have hfuel : sizeV v ≤ (serPV v 0).length + 1 :=
    le_trans (sizeV_le_len v 0 hp) (by omega)
  have h := (parseGo_ser ((serPV v 0).length + 1)).1 v 0 [] hp hfuel rfl
  rw [List.append_nil] at h
  unfold jsonParse parseValue
  rw [show (prettyStringify v).length = (serPV v 0).length from rfl,
    show (prettyStringify v).data = serPV v 0 from rfl, h]
  simp [skipWs]

/-! ### Claim C8 -/

/-- C8: for a successful run whose resolved top-level value is a
JSON-compatible composite, the produced `output` is its `JSON.stringify`
rendering, and parsing that output as JSON returns a value structurally equal
to the original (structural equality of the value trees, no reference
identity). -/
theorem C8_json_roundtrip (caps : List Capability) (p : GProg) (s : PoolState)
    (logs : List String) (v : JsValue) (hrun : runProg caps p [] = (logs, .ok v))
    (hcomp : isCompositeObject v = true) (hpure : pureV v = true) :
    (execute caps (.completes p) s).1.result.error = none
      ∧ (execute caps (.completes p) s).1.result.output = prettyStringify v
      ∧ jsonParse ((execute caps (.completes p) s).1.result.output) = some v := by
  have hout : (execute caps (.completes p) s).1.result.output = computeOutput v logs := by
    simp [execute, runScript, hrun]
  have hco : computeOutput v logs = prettyStringify v := by
    cases v <;> simp_all [isCompositeObject, computeOutput, typeofObject, prettyStringify]
  refine ⟨by simp [execute, runScript, hrun], hout.trans hco, ?_⟩
  rw [hout.trans hco]
  exact jsonParse_prettyStringify v hpure

theorem C8_json_roundtrip_witness :
    (execute [] (.completes (.ret sampleComposite)) initialPoolState).1.result.error = none
      ∧ (execute [] (.completes (.ret sampleComposite)) initialPoolState).1.result.output
          = prettyStringify sampleComposite
      ∧ jsonParse ((execute [] (.completes (.ret sampleComposite))
          initialPoolState).1.result.output) = some sampleComposite :=
  C8_json_roundtrip [] (.ret sampleComposite) initialPoolState [] sampleComposite
    rfl rfl rfl

end CodMode
